import Mathlib

/-!
Shallow embedding of the EV core of the `sports-ev-tool` repository:
`src/utils/ev_calculator.py`, `src/utils/line_schema.py`,
`src/market_odds/odds_api.py` and the `_parse_player_market` normalizers of
`src/scrapers/prizepicks.py` / `src/scrapers/underdog.py`.

Modelling conventions:
* Python floats are modelled as exact rationals (`ℚ`); Python's `round`
  (round-half-to-even on the scaled value) is modelled exactly on `ℚ` by
  `pyRound`.
* Fallible Python code (division by zero, `KeyError`, `AttributeError`)
  is modelled with `Option`: `none` is "the call raised".
* Python dictionaries are association lists `List (String × Value)` with
  first-occurrence lookup; Python strings are Lean `String`s and
  `str.lower` / `str.replace` / the `in` substring test are re-implemented
  structurally on `List Char` so that they evaluate by `decide`.
-/

/-- Round-half-to-even of a rational to an integer, the rounding mode of
Python's builtin `round`. -/
def rhe (x : ℚ) : ℤ :=
  if x - ⌊x⌋ < 1/2 then ⌊x⌋
  else if 1/2 < x - ⌊x⌋ then ⌊x⌋ + 1
  else if ⌊x⌋ % 2 = 0 then ⌊x⌋ else ⌊x⌋ + 1

/-- Python's `round(x, ndigits)` on exact rationals. -/
def pyRound (x : ℚ) (ndigits : ℕ) : ℚ :=
  (rhe (x * 10 ^ ndigits) : ℚ) / 10 ^ ndigits

/-- Source: `american_to_decimal` (`ev_calculator.py` lines 11-24), as the
underlying exact value; total on `ℚ` (the `a = 0` error case is carved out
in `american_to_decimal` below). -/
def american_to_decimal_exact (american_odds : ℚ) : ℚ :=
  if 0 < american_odds then american_odds / 100 + 1
  else 100 / |american_odds| + 1

/-- Source: `american_to_decimal` (`ev_calculator.py` lines 11-24).
`american_odds = 0` falls into the negative branch where Python evaluates
`100 / abs(0)` and raises `ZeroDivisionError`, modelled as `none`. -/
def american_to_decimal (american_odds : ℚ) : Option ℚ :=
  if american_odds = 0 then none
  else some (american_to_decimal_exact american_odds)

/-- Source: `decimal_to_probability` (`ev_calculator.py` lines 27-37);
`decimal_odds = 0` raises `ZeroDivisionError`. -/
def decimal_to_probability (decimal_odds : ℚ) : Option ℚ :=
  if decimal_odds = 0 then none else some (1 / decimal_odds)

/-- The `odds_format` string argument of `calculate_ev`: the code only
distinguishes `"american"` from anything else (anything else is treated as
decimal pass-through). -/
inductive OddsFormat where
  | american
  | decimal
  deriving DecidableEq

/-- The dictionary returned by `calculate_ev`. -/
structure EvResult where
  ev_dollars : ℚ
  ev_percentage : ℚ
  win_probability : ℚ
  payout_if_win : ℚ
  breakeven_probability : ℚ
  sportsbook_decimal_odds : ℚ
  market_decimal_odds : ℚ
  deriving DecidableEq

/-- Exact (pre-rounding) market win probability used by `calculate_ev`
for American-format inputs. -/
def win_probability_exact (market_odds : ℚ) : ℚ :=
  1 / american_to_decimal_exact market_odds

/-- Exact (pre-rounding) `ev_dollars` of `calculate_ev` for American-format
inputs. -/
def ev_dollars_exact (sportsbook_odds market_odds bet_amount : ℚ) : ℚ :=
  win_probability_exact market_odds *
      (bet_amount * american_to_decimal_exact sportsbook_odds - bet_amount) -
    (1 - win_probability_exact market_odds) * bet_amount

/-- Exact (pre-rounding) `ev_percentage` of `calculate_ev` for
American-format inputs. -/
def ev_percentage_exact (sportsbook_odds market_odds bet_amount : ℚ) : ℚ :=
  ev_dollars_exact sportsbook_odds market_odds bet_amount / bet_amount * 100

/-- Source: `calculate_ev` (`ev_calculator.py` lines 40-91).  The Python
default `bet_amount=100.0` is passed explicitly by callers of this
embedding.  `none` models an uncaught `ZeroDivisionError` (zero American
odds, zero decimal odds, or `bet_amount = 0` in the
`ev_percentage = ev_dollars / bet_amount * 100` line). -/
def calculate_ev (sportsbook_odds market_odds bet_amount : ℚ)
    (odds_format : OddsFormat) : Option EvResult :=
  let toDec : ℚ → Option ℚ := fun a =>
    match odds_format with
    | .american => american_to_decimal a
    | .decimal => some a
  match toDec sportsbook_odds, toDec market_odds with
  | some sportsbook_decimal, some market_decimal =>
    match decimal_to_probability market_decimal,
        decimal_to_probability sportsbook_decimal with
    | some market_probability, some breakeven_probability =>
      let payout_if_win := bet_amount * sportsbook_decimal
      let profit_if_win := payout_if_win - bet_amount
      let ev_dollars :=
        market_probability * profit_if_win - (1 - market_probability) * bet_amount
      if bet_amount = 0 then none
      else
        some {
          ev_dollars := pyRound ev_dollars 2
          ev_percentage := pyRound (ev_dollars / bet_amount * 100) 2
          win_probability := pyRound market_probability 4
          payout_if_win := pyRound payout_if_win 2
          breakeven_probability := pyRound breakeven_probability 4
          sportsbook_decimal_odds := pyRound sportsbook_decimal 3
          market_decimal_odds := pyRound market_decimal 3 }
    | _, _ => none
  | _, _ => none

/-- Source: `is_positive_ev` (`ev_calculator.py` lines 94-113): strict
greater-than against the threshold, stake fixed at the `calculate_ev`
default of 100. -/
def is_positive_ev (sportsbook_odds market_odds min_ev_threshold : ℚ)
    (odds_format : OddsFormat) : Option Bool :=
  (calculate_ev sportsbook_odds market_odds 100 odds_format).map
    (fun r => decide (min_ev_threshold < r.ev_percentage))

-- Python string primitives used by the matcher and the normalizers.

/-- Python's `str.lower` (ASCII, as used by the repository's data). -/
def pyLower (s : String) : String := ⟨s.data.map Char.toLower⟩

/-- Python's `str.upper`. -/
def pyUpper (s : String) : String := ⟨s.data.map Char.toUpper⟩

/-- `dropPre pat s = some rest` iff `s = pat ++ rest`: the elementary
step of Python's substring search and of `str.replace`. -/
def dropPre : List Char → List Char → Option (List Char)
  | [], s => some s
  | _ :: _, [] => none
  | p :: ps, c :: cs => if c = p then dropPre ps cs else none

/-- Python's `needle in hay` substring test, on char lists. -/
def listContains (needle : List Char) : List Char → Bool
  | [] => needle.isEmpty
  | c :: rest => (dropPre needle (c :: rest)).isSome || listContains needle rest

/-- Python's `needle in hay` substring test on strings. -/
def pyContains (hay needle : String) : Bool := listContains needle.data hay.data

/-- One left-to-right pass of Python's `str.replace`, fuelled so that it
is structurally recursive.  Fuel `s.length` always suffices: a
replacement of a non-empty pattern consumes at least one character.
(Python's `replace` with an empty pattern is never used by this
repository and is modelled as the identity.) -/
def replaceAux (pat rep : List Char) : ℕ → List Char → List Char
  | 0, s => s
  | _ + 1, [] => []
  | fuel + 1, c :: rest =>
    match pat, dropPre pat (c :: rest) with
    | _ :: _, some remainder => rep ++ replaceAux pat rep fuel remainder
    | _, _ => c :: replaceAux pat rep fuel rest

/-- Python's `s.replace(pat, rep)`: every non-overlapping occurrence,
scanned left to right. -/
def pyReplace (s pat rep : String) : String :=
  ⟨replaceAux pat.data rep.data s.data.length s.data⟩

-- Market-type extraction of the scrapers (C7).

/-- Source: both scrapers' `_parse_player_market`
(`prizepicks.py` line 82, `underdog.py` line 81):
`market_key.replace('player_', '').replace('_alternate', '')`. -/
def market_type_from_key (market_key : String) : String :=
  pyReplace (pyReplace market_key "player_" "") "_alternate" ""

/-- The market-type extraction as the C7 claim words it: strip the
`player_` token as a PREFIX when present, strip the `_alternate` token as
a SUFFIX when present, and leave tokens elsewhere in the key untouched.
Declared for comparison with `market_type_from_key` (the code's
replace-all semantics). -/
def market_type_spec (market_key : String) : String :=
  let afterPre : List Char :=
    match dropPre "player_".data market_key.data with
    | some rest => rest
    | none => market_key.data
  let afterSuf : List Char :=
    if "_alternate".data.isSuffixOf afterPre then
      afterPre.take (afterPre.length - "_alternate".data.length)
    else afterPre
  ⟨afterSuf⟩

-- The Odds API payload shape consumed by the matcher and the scrapers.

/-- An `outcome` object of The Odds API payload.  Optional keys are
`Option`; a missing `description` is modelled as `""` because every
reader uses `outcome.get('description', '')`. -/
structure Outcome where
  name : String
  description : String
  price : Option ℚ
  point : Option ℚ
  deriving DecidableEq

/-- A `market` object: its key and outcome list. -/
structure MarketObj where
  key : String
  outcomes : List Outcome
  deriving DecidableEq

/-- A `bookmaker` object: its key and market list. -/
structure BookmakerObj where
  key : String
  markets : List MarketObj
  deriving DecidableEq

/-- A `game` object, reduced to the fields the matcher reads. -/
structure GameObj where
  bookmakers : List BookmakerObj
  deriving DecidableEq

/-- Source: the `market_mapping` table of `get_market_odds_for_player`
(`odds_api.py` lines 176-181). -/
def market_mapping (market_type : String) : Option String :=
  if market_type = "points" then some "player_points"
  else if market_type = "rebounds" then some "player_rebounds"
  else if market_type = "assists" then some "player_assists"
  else if market_type = "touchdowns" then some "player_touchdowns"
  else none

/-- The eligibility test of the matcher's inner loop
(`odds_api.py` lines 197-198): `player_name.lower() in
outcome.get('description', '').lower() and outcome.get('point') ==
line_value`.  A missing `point` compares unequal to any number. -/
def outcome_matches (player_name : String) (line_value : ℚ) (o : Outcome) : Bool :=
  pyContains (pyLower o.description) (pyLower player_name) &&
    decide (o.point = some line_value)

/-- Source: `get_market_odds_for_player` (`odds_api.py` lines 154-204),
taking the already-fetched payload (the network call
`api_client.get_player_props` is I/O outside the embedded core).  The
broad `except` returns `None` on any error; the only in-scope error is a
matched outcome without a `price` key (`outcome['price']` raises
`KeyError`), modelled by binding on `Outcome.price`. -/
def get_market_odds_for_player (odds_data : List GameObj)
    (player_name market_type : String) (line_value : ℚ) : Option ℚ :=
  match market_mapping (pyLower market_type) with
  | none => none
  | some api_market =>
    (odds_data.findSome? fun game =>
      game.bookmakers.findSome? fun bookmaker =>
        bookmaker.markets.findSome? fun market =>
          if market.key = api_market then
            market.outcomes.find? (outcome_matches player_name line_value)
          else none).bind Outcome.price

/-- The payload's outcomes restricted to markets with the mapped key, in
the payload's iteration order (games, then bookmakers, then markets, then
outcomes). -/
def eligible_outcomes (api_market : String) (odds_data : List GameObj) : List Outcome :=
  odds_data.flatMap fun game =>
    game.bookmakers.flatMap fun bookmaker =>
      bookmaker.markets.flatMap fun market =>
        if market.key = api_market then market.outcomes else []

-- Line dictionaries (`line_schema.py`) and the Line-level EV merge.

/-- Python values stored in a Line dictionary. -/
inductive Value where
  | str (s : String)
  | num (q : ℚ)
  | bool (b : Bool)
  deriving DecidableEq

/-- Dictionary lookup (`d[k]` when present, `None` when absent;
Python dict keys are unique, so first occurrence wins). -/
def dictGet : List (String × Value) → String → Option Value
  | [], _ => none
  | (k', v) :: rest, k => if k' = k then some v else dictGet rest k

/-- `d[k] = v` in Python dict semantics: an existing key keeps its
position and receives the new value, a fresh key is appended. -/
def dictSet (d : List (String × Value)) (k : String) (v : Value) :
    List (String × Value) :=
  match d with
  | [] => [(k, v)]
  | (k', v') :: rest =>
    if k' = k then (k, v) :: rest else (k', v') :: dictSet rest k v

/-- The decimal rendering of a number inside an f-string.  No claim
inspects this text, so Python's float formatting is abstracted by the
rational's canonical rendering. -/
def numRepr (q : ℚ) : String := toString q

/-- Source: `create_line_schema` (`line_schema.py` lines 12-60).
Timestamps are modelled as already-rendered ISO strings: `event_date`
holds what `event_date.isoformat()` yields and `scraped_at` the creation
timestamp (Python defaults it to `datetime.now()`; the pure embedding
takes it as a parameter). -/
def create_line_schema
    (sportsbook sport league event_name player_name market_type : String)
    (line_value odds : ℚ) (over_under : String)
    (event_date scraped_at : String) : List (String × Value) :=
  [("sportsbook", .str sportsbook),
   ("sport", .str sport),
   ("league", .str league),
   ("event_name", .str event_name),
   ("player_name", .str player_name),
   ("market_type", .str market_type),
   ("line_value", .num line_value),
   ("odds", .num odds),
   ("over_under", .str (pyLower over_under)),
   ("event_date", .str event_date),
   ("scraped_at", .str scraped_at),
   ("unique_id", .str (pyLower (pyReplace
      (sportsbook ++ "_" ++ sport ++ "_" ++ player_name ++ "_" ++ market_type
        ++ "_" ++ numRepr line_value ++ "_" ++ over_under) " " "_")))]

/-- The twelve required fields of `validate_line_schema`. -/
def required_fields : List String :=
  ["sportsbook", "sport", "league", "event_name", "player_name",
   "market_type", "line_value", "odds", "over_under", "event_date",
   "scraped_at", "unique_id"]

/-- Python's `isinstance(v, (int, float))`.  `True`/`False` are `int`s in
Python, so booleans pass the numeric check. -/
def isNumeric : Value → Bool
  | .num _ => true
  | .bool _ => true
  | .str _ => false

/-- Source: `validate_line_schema` (`line_schema.py` lines 63-94).
`none` models the `AttributeError` raised when `line_data["over_under"]`
is present but not a string (`.lower()` is called unconditionally). -/
def validate_line_schema (line_data : List (String × Value)) : Option Bool :=
  if required_fields.all (fun f => (dictGet line_data f).isSome) then
    match dictGet line_data "line_value" with
    | some lv =>
      if isNumeric lv then
        match dictGet line_data "odds" with
        | some od =>
          if isNumeric od then
            match dictGet line_data "over_under" with
            | some (.str s) =>
              some (decide (pyLower s = "over" ∨ pyLower s = "under"))
            | some _ => none
            | none => none
          else some false
        | none => some false
      else some false
    | none => some false
  else some false

/-- Source: `calculate_line_ev` (`ev_calculator.py` lines 116-145).
`line_data.copy()` followed by `update` with the six EV keys is modelled
by six `dictSet` writes on the (immutable) input list; the argument
itself is a pure value and cannot change.  `none` models an uncaught
error: a missing or non-numeric `"odds"` entry, or zero odds inside
`calculate_ev`.  (A boolean `"odds"` entry would behave as an int in
Python; no Line ever carries one, and it is not modelled.) -/
def calculate_line_ev (line_data : List (String × Value)) (market_odds : ℚ) :
    Option (List (String × Value)) :=
  match dictGet line_data "odds" with
  | some (.num odds) =>
    (calculate_ev odds market_odds 100 .american).map fun ev_result =>
      dictSet (dictSet (dictSet (dictSet (dictSet (dictSet line_data
        "market_odds" (.num market_odds))
        "ev_dollars" (.num ev_result.ev_dollars))
        "ev_percentage" (.num ev_result.ev_percentage))
        "win_probability" (.num ev_result.win_probability))
        "payout_if_win" (.num ev_result.payout_if_win))
        "is_positive_ev" (.bool (decide (0 < ev_result.ev_percentage)))
  | _ => none

-- The scrapers' player-market normalizer (C7, C9).

/-- Source: `_convert_sport_key` (both scrapers): fixed lookup with an
upper-cased fallback. -/
def convert_sport_key (sport_key : String) : String :=
  if sport_key = "basketball_nba" then "NBA"
  else if sport_key = "americanfootball_nfl" then "NFL"
  else if sport_key = "baseball_mlb" then "MLB"
  else if sport_key = "icehockey_nhl" then "NHL"
  else pyUpper sport_key

/-- The per-outcome body of `_parse_player_market` (identical in
`prizepicks.py` lines 85-111 and `underdog.py` lines 84-110), the
enclosing scraper's sportsbook label as a parameter.  An outcome with an
empty player name or no `point` yields no Line; a missing `price`
defaults to 0 (`outcome.get('price', 0)`). -/
def parse_player_outcome (sportsbook market_type event_name : String)
    (sport_key event_date scraped_at : String) (o : Outcome) :
    Option (List (String × Value)) :=
  let player_name := o.name
  let odds := o.price.getD 0
  let over_under :=
    if pyContains (pyLower o.description) "under" ||
        pyContains (pyLower o.description) "less" then "under"
    else "over"
  match o.point with
  | some line_value =>
    if player_name = "" then none
    else some (create_line_schema sportsbook (convert_sport_key sport_key)
      (convert_sport_key sport_key) event_name player_name market_type
      line_value odds over_under event_date scraped_at)
  | none => none

/-- Source: `_parse_player_market` (both scrapers): market type from the
market key, then one Line per qualifying outcome, in payload order. -/
def parse_player_market (sportsbook : String) (market : MarketObj)
    (event_name sport_key event_date scraped_at : String) :
    List (List (String × Value)) :=
  market.outcomes.filterMap
    (parse_player_outcome sportsbook (market_type_from_key market.key)
      event_name sport_key event_date scraped_at)

/-- `PrizePicksScraper._parse_player_market` (`sportsbook="PrizePicks"`). -/
def prizepicks_parse_player_market := parse_player_market "PrizePicks"

/-- `UnderdogScraper._parse_player_market` (`sportsbook="Underdog"`). -/
def underdog_parse_player_market := parse_player_market "Underdog"

-- Concrete demonstration data for the claim witnesses.

/-- Scenario 3 outcome: LeBron James at point 25, price `-120`. -/
def demo_outcome_lebron : Outcome :=
  { name := "LeBron James"
    description := "LeBron James Over"
    price := some (-120)
    point := some 25 }

/-- Scenario 3 outcome: a different player at the same point. -/
def demo_outcome_other : Outcome :=
  { name := "Stephen Curry"
    description := "Stephen Curry Over"
    price := some 105
    point := some 25 }

/-- A one-game, one-bookmaker payload carrying both demo outcomes on the
`player_points` market. -/
def demo_payload : List GameObj :=
  [{ bookmakers := [{ key := "draftkings"
                      markets := [{ key := "player_points"
                                    outcomes := [demo_outcome_lebron,
                                                 demo_outcome_other] }] }] }]

/-- A small Line dictionary for the `calculate_line_ev` witness. -/
def demo_line : List (String × Value) :=
  [("player_name", .str "LeBron James"), ("odds", .num (-110))]

/-- An outcome with a player name and a point but no `price` key. -/
def demo_outcome_no_price : Outcome :=
  { name := "Nikola Jokic"
    description := "Nikola Jokic Over"
    price := none
    point := some 30 }

/-- A market whose only outcome has no `price` key. -/
def demo_market_no_price : MarketObj :=
  { key := "player_points", outcomes := [demo_outcome_no_price] }

-- Basic facts about the embedding, shared by several claim proofs.

lemma american_to_decimal_exact_pos (a : ℚ) : 0 < american_to_decimal_exact a := by
  unfold american_to_decimal_exact
  split
  · nlinarith
  · have h : (0:ℚ) ≤ 100 / |a| := by positivity
    linarith

lemma american_to_decimal_of_ne (a : ℚ) (h : a ≠ 0) :
    american_to_decimal a = some (american_to_decimal_exact a) := by
  simp [american_to_decimal, h]

lemma win_probability_exact_pos (m : ℚ) : 0 < win_probability_exact m := by
  unfold win_probability_exact
  exact one_div_pos.mpr (american_to_decimal_exact_pos m)

lemma rhe_of_lt_half (x : ℚ) (k : ℤ) (h1 : (k : ℚ) ≤ x) (h2 : x < k + 1)
    (h3 : x - k < 1/2) : rhe x = k := by
  have hf : ⌊x⌋ = k := Int.floor_eq_iff.mpr ⟨h1, by exact_mod_cast h2⟩
  unfold rhe
  rw [hf, if_pos h3]

lemma rhe_of_half_lt (x : ℚ) (k : ℤ) (h1 : (k : ℚ) ≤ x) (h2 : x < k + 1)
    (h3 : 1/2 < x - k) : rhe x = k + 1 := by
  have hf : ⌊x⌋ = k := Int.floor_eq_iff.mpr ⟨h1, by exact_mod_cast h2⟩
  unfold rhe
  rw [hf, if_neg (by linarith), if_pos h3]

lemma rhe_intCast (k : ℤ) : rhe (k : ℚ) = k := by
  apply rhe_of_lt_half
  · exact le_refl _
  · exact_mod_cast lt_add_one (k : ℚ)
  · norm_num

lemma pyRound_zero (n : ℕ) : pyRound 0 n = 0 := by
  unfold pyRound
  rw [zero_mul, show ((0:ℚ)) = ((0 : ℤ) : ℚ) by norm_num, rhe_intCast]
  norm_num

lemma rhe_mono {x y : ℚ} (h : x ≤ y) : rhe x ≤ rhe y := by
  have hfl : ⌊x⌋ ≤ ⌊y⌋ := Int.floor_mono h
  have hx0 : (⌊x⌋ : ℚ) ≤ x := Int.floor_le x
  have hy0 : (⌊y⌋ : ℚ) ≤ y := Int.floor_le y
  unfold rhe
  rcases lt_or_eq_of_le hfl with hlt | heq
  · have hxle : (if x - ⌊x⌋ < 1/2 then ⌊x⌋ else if 1/2 < x - ⌊x⌋ then ⌊x⌋ + 1
        else if ⌊x⌋ % 2 = 0 then ⌊x⌋ else ⌊x⌋ + 1) ≤ ⌊x⌋ + 1 := by
      split
      · omega
      · split
        · omega
        · split <;> omega
    have hyge : ⌊y⌋ ≤ (if y - ⌊y⌋ < 1/2 then ⌊y⌋ else if 1/2 < y - ⌊y⌋ then ⌊y⌋ + 1
        else if ⌊y⌋ % 2 = 0 then ⌊y⌋ else ⌊y⌋ + 1) := by
      split
      · omega
      · split
        · omega
        · split <;> omega
    omega
  · rw [heq]
    have hr : x - ⌊y⌋ ≤ y - ⌊y⌋ := by
      rw [← heq]
      rw [heq]
      linarith
    by_cases h1 : x - ⌊y⌋ < 1/2
    · rw [if_pos h1]
      split
      · omega
      · split
        · omega
        · split <;> omega
    · rw [if_neg h1]
      have h1y : ¬ (y - ⌊y⌋ < 1/2) := by
        intro hc
        exact h1 (lt_of_le_of_lt hr hc)
      rw [if_neg h1y]
      by_cases h2 : 1/2 < x - ⌊y⌋
      · have h2y : 1/2 < y - ⌊y⌋ := lt_of_lt_of_le h2 hr
        rw [if_pos h2, if_pos h2y]
      · rw [if_neg h2]
        split
        · split <;> omega
        · split <;> omega

lemma pyRound_mono {x y : ℚ} (n : ℕ) (h : x ≤ y) : pyRound x n ≤ pyRound y n := by
  unfold pyRound
  have hpow : (0:ℚ) < 10 ^ n := by positivity
  have := rhe_mono (mul_le_mul_of_nonneg_right h hpow.le)
  exact (div_le_div_iff_of_pos_right hpow).mpr (by exact_mod_cast this)

/-- On the valid American-odds range (`|a| ≥ 100`), the decimal-odds
conversion is strictly monotone, except that `-100` and `+100` both map to
decimal odds 2. -/
lemma american_to_decimal_exact_lt (a₁ a₂ : ℚ) (h₁ : 100 ≤ |a₁|)
    (h₂ : 100 ≤ |a₂|) (hlt : a₁ < a₂) (hne : ¬(a₁ = -100 ∧ a₂ = 100)) :
    american_to_decimal_exact a₁ < american_to_decimal_exact a₂ := by
  rcases le_abs.mp h₁ with ha1p | ha1n
  · -- a₁ ≥ 100, hence a₂ > 100: both in the positive branch
    have ha2p : (100:ℚ) ≤ a₂ := le_of_lt (lt_of_le_of_lt ha1p hlt)
    unfold american_to_decimal_exact
    rw [if_pos (by linarith : (0:ℚ) < a₁), if_pos (by linarith : (0:ℚ) < a₂)]
    linarith
  · -- a₁ ≤ -100
    have ha1neg : a₁ ≤ -100 := by linarith
    rcases le_abs.mp h₂ with ha2p | ha2n
    · -- a₁ ≤ -100 < 0 < 100 ≤ a₂: across the sign change
      have hd1 : american_to_decimal_exact a₁ ≤ 2 := by
        unfold american_to_decimal_exact
        rw [if_neg (by linarith : ¬ (0:ℚ) < a₁), abs_of_nonpos (by linarith)]
        have : 100 / -a₁ ≤ 1 := by
          rw [div_le_one (by linarith : (0:ℚ) < -a₁)]
          linarith
        linarith
      have hd2 : 2 ≤ american_to_decimal_exact a₂ := by
        unfold american_to_decimal_exact
        rw [if_pos (by linarith : (0:ℚ) < a₂)]
        linarith
      rcases not_and_or.mp hne with hne1 | hne2
      · have hstrict : a₁ < -100 := lt_of_le_of_ne ha1neg hne1
        have hd1' : american_to_decimal_exact a₁ < 2 := by
          unfold american_to_decimal_exact
          rw [if_neg (by linarith : ¬ (0:ℚ) < a₁), abs_of_nonpos (by linarith)]
          have : 100 / -a₁ < 1 := by
            rw [div_lt_one (by linarith : (0:ℚ) < -a₁)]
            linarith
          linarith
        linarith
      · have hstrict : 100 < a₂ := lt_of_le_of_ne ha2p (Ne.symm hne2)
        have hd2' : 2 < american_to_decimal_exact a₂ := by
          unfold american_to_decimal_exact
          rw [if_pos (by linarith : (0:ℚ) < a₂)]
          linarith
        linarith
    · -- both ≤ -100: the negative branch 100/(-a) + 1 is strictly increasing
      have ha2neg : a₂ ≤ -100 := by linarith
      unfold american_to_decimal_exact
      rw [if_neg (by linarith : ¬ (0:ℚ) < a₁), if_neg (by linarith : ¬ (0:ℚ) < a₂),
        abs_of_nonpos (by linarith : a₁ ≤ 0), abs_of_nonpos (by linarith : a₂ ≤ 0)]
      have : 100 / -a₁ < 100 / -a₂ :=
        div_lt_div_of_pos_left (by norm_num) (by linarith) (by linarith)
      linarith

/-- `ev_percentage_exact` as an affine function of the sportsbook decimal
odds (stake cancels). -/
lemma ev_percentage_exact_eq (a m s : ℚ) (hs : s ≠ 0) :
    ev_percentage_exact a m s =
      100 * (win_probability_exact m * american_to_decimal_exact a - 1) := by
  unfold ev_percentage_exact ev_dollars_exact
  field_simp
  ring

/-- Fixing market odds and stake, the exact (pre-rounding) EV percentage is
strictly increasing in the sportsbook decimal odds. -/
lemma ev_percentage_exact_strict (a₁ a₂ m s : ℚ) (h₁ : 100 ≤ |a₁|)
    (h₂ : 100 ≤ |a₂|) (hlt : a₁ < a₂) (hne : ¬(a₁ = -100 ∧ a₂ = 100))
    (hs : s ≠ 0) :
    ev_percentage_exact a₁ m s < ev_percentage_exact a₂ m s := by
  rw [ev_percentage_exact_eq a₁ m s hs, ev_percentage_exact_eq a₂ m s hs]
  have hp := win_probability_exact_pos m
  have hd := american_to_decimal_exact_lt a₁ a₂ h₁ h₂ hlt hne
  nlinarith

lemma american_to_decimal_exact_of_pos {x : ℚ} (h : 0 < x) :
    american_to_decimal_exact x = x / 100 + 1 := by
  unfold american_to_decimal_exact
  rw [if_pos h]

lemma american_to_decimal_exact_of_neg {x : ℚ} (h : x < 0) :
    american_to_decimal_exact x = 100 / (-x) + 1 := by
  unfold american_to_decimal_exact
  rw [if_neg (not_lt.mpr h.le), abs_of_nonpos h.le]

lemma pyRound_eq_down (x : ℚ) (n : ℕ) (k : ℤ) (h1 : (k : ℚ) ≤ x * 10 ^ n)
    (h2 : x * 10 ^ n < k + 1) (h3 : x * 10 ^ n - k < 1/2) :
    pyRound x n = (k : ℚ) / 10 ^ n := by
  unfold pyRound
  rw [rhe_of_lt_half _ k h1 h2 h3]

lemma pyRound_eq_up (x : ℚ) (n : ℕ) (k : ℤ) (h1 : (k : ℚ) ≤ x * 10 ^ n)
    (h2 : x * 10 ^ n < k + 1) (h3 : 1/2 < x * 10 ^ n - k) :
    pyRound x n = ((k + 1 : ℤ) : ℚ) / 10 ^ n := by
  unfold pyRound
  rw [rhe_of_half_lt _ k h1 h2 h3]

/-- Closed form of `calculate_ev` on American-format inputs with nonzero
odds and stake. -/
lemma calculate_ev_american (a m s : ℚ) (ha : a ≠ 0) (hm : m ≠ 0)
    (hs : s ≠ 0) :
    calculate_ev a m s .american = some {
      ev_dollars := pyRound (ev_dollars_exact a m s) 2
      ev_percentage := pyRound (ev_percentage_exact a m s) 2
      win_probability := pyRound (win_probability_exact m) 4
      payout_if_win := pyRound (s * american_to_decimal_exact a) 2
      breakeven_probability := pyRound (1 / american_to_decimal_exact a) 4
      sportsbook_decimal_odds := pyRound (american_to_decimal_exact a) 3
      market_decimal_odds := pyRound (american_to_decimal_exact m) 3 } := by
  have hda := american_to_decimal_exact_pos a
  have hdm := american_to_decimal_exact_pos m
  unfold calculate_ev
  simp only [american_to_decimal_of_ne a ha, american_to_decimal_of_ne m hm,
    decimal_to_probability, if_neg hda.ne', if_neg hdm.ne', if_neg hs]
  rfl

-- Concrete evaluations of the embedding at the inputs of scenarios 1 and 2
-- and at the monotonicity counterexamples.

lemma a2d_neg110 : american_to_decimal_exact (-110) = 21/11 := by
  rw [american_to_decimal_exact_of_neg (by norm_num)]
  norm_num

lemma a2d_pos100 : american_to_decimal_exact 100 = 2 := by
  rw [american_to_decimal_exact_of_pos (by norm_num)]
  norm_num

lemma evd_neg110_100 : ev_dollars_exact (-110) 100 100 = -50/11 := by
  unfold ev_dollars_exact win_probability_exact
  rw [a2d_neg110, a2d_pos100]
  norm_num

lemma evp_neg110_100 : ev_percentage_exact (-110) 100 100 = -50/11 := by
  unfold ev_percentage_exact
  rw [evd_neg110_100]
  norm_num

/-- C4: for American odds input 0, `american_to_decimal` (and hence
`calculate_ev` and `is_positive_ev` in American format) surfaces an error
to the caller (`none`, the model of the uncaught `ZeroDivisionError` from
`100 / abs(0)`), and never returns a coerced numeric result. -/
theorem c4_zero_american_odds_rejected :
    american_to_decimal 0 = none ∧
    (∀ m s : ℚ, calculate_ev 0 m s .american = none) ∧
    (∀ m t : ℚ, is_positive_ev 0 m t .american = none) := by
  refine ⟨by simp [american_to_decimal], ?_, ?_⟩
  · intro m s
    simp [calculate_ev, american_to_decimal]
  · intro m t
    simp [is_positive_ev, calculate_ev, american_to_decimal]

/-- C6: when the sportsbook odds equal the market odds (both nonzero
American), `calculate_ev` returns `ev_percentage = 0` exactly, and
`is_positive_ev` with the default threshold 0 is `false` (the comparison
is strict). -/
theorem c6_equal_odds_zero_ev (a : ℚ) (ha : a ≠ 0) :
    ∃ r : EvResult, calculate_ev a a 100 .american = some r ∧
      r.ev_percentage = 0 ∧ is_positive_ev a a 0 .american = some false := by
  have h := calculate_ev_american a a 100 ha ha (by norm_num)
  have hD := (american_to_decimal_exact_pos a).ne'
  have hev : ev_dollars_exact a a 100 = 0 := by
    unfold ev_dollars_exact win_probability_exact
    field_simp
    ring
  have hevp : ev_percentage_exact a a 100 = 0 := by
    unfold ev_percentage_exact
    rw [hev]
    ring
  refine ⟨_, h, ?_, ?_⟩
  · show pyRound (ev_percentage_exact a a 100) 2 = 0
    rw [hevp, pyRound_zero]
  · unfold is_positive_ev
    rw [h]
    simp [hevp, pyRound_zero]

/-- C6 witness: scenario 2 of the spec, sportsbook `-110` against market
`-110`. -/
theorem c6_witness :
    ((-110 : ℚ) ≠ 0) ∧
    (∃ r : EvResult, calculate_ev (-110) (-110) 100 .american = some r ∧
      r.ev_percentage = 0 ∧ is_positive_ev (-110) (-110) 0 .american = some false) :=
  ⟨by norm_num, c6_equal_odds_zero_ev (-110) (by norm_num)⟩

lemma pr_evd_s1 : pyRound (ev_dollars_exact (-110) 100 100) 2 = -91/20 := by
  rw [evd_neg110_100,
    pyRound_eq_down _ _ (-455) (by norm_num) (by norm_num) (by norm_num)]
  norm_num

lemma pr_evp_s1 : pyRound (ev_percentage_exact (-110) 100 100) 2 = -91/20 := by
  rw [evp_neg110_100,
    pyRound_eq_down _ _ (-455) (by norm_num) (by norm_num) (by norm_num)]
  norm_num

lemma pr_wp_s1 : pyRound (win_probability_exact 100) 4 = 1/2 := by
  unfold win_probability_exact
  rw [a2d_pos100, show (1:ℚ)/2 = 1/2 by norm_num,
    pyRound_eq_down _ _ 5000 (by norm_num) (by norm_num) (by norm_num)]
  norm_num

lemma pr_payout_s1 : pyRound (100 * american_to_decimal_exact (-110)) 2 = 19091/100 := by
  rw [a2d_neg110, show (100:ℚ) * (21/11) = 2100/11 by norm_num,
    pyRound_eq_up _ _ 19090 (by norm_num) (by norm_num) (by norm_num)]
  norm_num

lemma pr_be_s1 : pyRound (1 / american_to_decimal_exact (-110)) 4 = 2619/5000 := by
  rw [a2d_neg110, show (1:ℚ)/(21/11) = 11/21 by norm_num,
    pyRound_eq_down _ _ 5238 (by norm_num) (by norm_num) (by norm_num)]
  norm_num

lemma pr_sd_s1 : pyRound (american_to_decimal_exact (-110)) 3 = 1909/1000 := by
  rw [a2d_neg110,
    pyRound_eq_down _ _ 1909 (by norm_num) (by norm_num) (by norm_num)]
  norm_num

lemma pr_md_s1 : pyRound (american_to_decimal_exact 100) 3 = 2 := by
  rw [a2d_pos100,
    pyRound_eq_down _ _ 2000 (by norm_num) (by norm_num) (by norm_num)]
  norm_num

/-- C1 (counterexample): for sportsbook `-110` against market `+100` at
stake 100 the code returns `ev_dollars = -4.55` (a strictly negative
value, not the `+4.55` the claim states) and `is_positive_ev` is `false`,
not `true`. -/
theorem c1_counterexample :
    (calculate_ev (-110) 100 100 .american).map EvResult.ev_dollars = some (-91/20) ∧
    ((-91 : ℚ)/20 < 0) ∧
    is_positive_ev (-110) 100 0 .american = some false := by
  have h := calculate_ev_american (-110) 100 100 (by norm_num) (by norm_num) (by norm_num)
  refine ⟨?_, by norm_num, ?_⟩
  · rw [h]
    simp only [Option.map_some']
    change some (pyRound (ev_dollars_exact (-110) 100 100) 2) = _
    rw [pr_evd_s1]
  · unfold is_positive_ev
    rw [h]
    simp only [Option.map_some']
    change some (decide ((0:ℚ) < pyRound (ev_percentage_exact (-110) 100 100) 2)) = _
    rw [pr_evp_s1]
    simp only [Option.some.injEq, decide_eq_false_iff_not]
    norm_num

/-- C1 (amended): for sportsbook `-110`, market `+100`, stake 100 in
American format, `calculate_ev` returns sportsbook decimal odds `1.909`,
market decimal odds `2.0` and `win_probability = 0.5` as the claim states,
but `ev_dollars = -4.55` and `ev_percentage = -4.55` (negative, not
positive: the sportsbook pays worse than the fair market), and
`is_positive_ev(-110, +100)` with the default threshold is `false`. -/
theorem c1_amended :
    calculate_ev (-110) 100 100 .american = some {
      ev_dollars := -91/20
      ev_percentage := -91/20
      win_probability := 1/2
      payout_if_win := 19091/100
      breakeven_probability := 2619/5000
      sportsbook_decimal_odds := 1909/1000
      market_decimal_odds := 2 } ∧
    is_positive_ev (-110) 100 0 .american = some false := by
  have h := calculate_ev_american (-110) 100 100 (by norm_num) (by norm_num) (by norm_num)
  constructor
  · rw [h, pr_evd_s1, pr_evp_s1, pr_wp_s1, pr_payout_s1, pr_be_s1, pr_sd_s1, pr_md_s1]
  · unfold is_positive_ev
    rw [h]
    simp only [Option.map_some']
    change some (decide ((0:ℚ) < pyRound (ev_percentage_exact (-110) 100 100) 2)) = _
    rw [pr_evp_s1]
    simp only [Option.some.injEq, decide_eq_false_iff_not]
    norm_num

/-- C2: for nonzero American sportsbook odds `a`, nonzero American market
odds `m` and stake `s > 0`, `calculate_ev` in American format computes
exactly the claimed formulas: decimal odds `a/100 + 1` for positive odds
and `100/|a| + 1` otherwise, `win_probability = 1/D_market` rounded to 4
decimals, `breakeven_probability = 1/D_sportsbook` rounded to 4 decimals,
`payout_if_win = s * D_sportsbook` rounded to 2, `ev_dollars` as the
claimed expectation rounded to 2, `ev_percentage = 100 * ev_dollars / s`
rounded to 2, and the decimal-odds fields rounded to 3 decimals. -/
theorem c2_calculate_ev_formulas (a m s : ℚ) (ha : a ≠ 0) (hm : m ≠ 0)
    (hs : 0 < s) :
    calculate_ev a m s .american = some {
      ev_dollars := pyRound
        (1 / (if 0 < m then m / 100 + 1 else 100 / |m| + 1) *
            (s * (if 0 < a then a / 100 + 1 else 100 / |a| + 1) - s) -
          (1 - 1 / (if 0 < m then m / 100 + 1 else 100 / |m| + 1)) * s) 2
      ev_percentage := pyRound
        (100 *
          (1 / (if 0 < m then m / 100 + 1 else 100 / |m| + 1) *
              (s * (if 0 < a then a / 100 + 1 else 100 / |a| + 1) - s) -
            (1 - 1 / (if 0 < m then m / 100 + 1 else 100 / |m| + 1)) * s) / s) 2
      win_probability := pyRound
        (1 / (if 0 < m then m / 100 + 1 else 100 / |m| + 1)) 4
      payout_if_win := pyRound
        (s * (if 0 < a then a / 100 + 1 else 100 / |a| + 1)) 2
      breakeven_probability := pyRound
        (1 / (if 0 < a then a / 100 + 1 else 100 / |a| + 1)) 4
      sportsbook_decimal_odds := pyRound
        (if 0 < a then a / 100 + 1 else 100 / |a| + 1) 3
      market_decimal_odds := pyRound
        (if 0 < m then m / 100 + 1 else 100 / |m| + 1) 3 } := by
  rw [calculate_ev_american a m s ha hm hs.ne']
  refine congrArg some ?_
  have hpct : ev_percentage_exact a m s = 100 * ev_dollars_exact a m s / s := by
    unfold ev_percentage_exact
    ring
  rw [hpct]
  rfl

/-- C2 witness: the formulas instantiated at sportsbook `-110`, market
`+100`, stake `100`. -/
theorem c2_witness :
    ((-110 : ℚ) ≠ 0) ∧ ((100 : ℚ) ≠ 0) ∧ ((0 : ℚ) < 100) ∧
    calculate_ev (-110) 100 100 .american = some {
      ev_dollars := pyRound
        (1 / (if 0 < (100:ℚ) then (100:ℚ) / 100 + 1 else 100 / |(100:ℚ)| + 1) *
            (100 * (if 0 < (-110:ℚ) then (-110:ℚ) / 100 + 1 else 100 / |(-110:ℚ)| + 1) - 100) -
          (1 - 1 / (if 0 < (100:ℚ) then (100:ℚ) / 100 + 1 else 100 / |(100:ℚ)| + 1)) * 100) 2
      ev_percentage := pyRound
        (100 *
          (1 / (if 0 < (100:ℚ) then (100:ℚ) / 100 + 1 else 100 / |(100:ℚ)| + 1) *
              (100 * (if 0 < (-110:ℚ) then (-110:ℚ) / 100 + 1 else 100 / |(-110:ℚ)| + 1) - 100) -
            (1 - 1 / (if 0 < (100:ℚ) then (100:ℚ) / 100 + 1 else 100 / |(100:ℚ)| + 1)) * 100) / 100) 2
      win_probability := pyRound
        (1 / (if 0 < (100:ℚ) then (100:ℚ) / 100 + 1 else 100 / |(100:ℚ)| + 1)) 4
      payout_if_win := pyRound
        (100 * (if 0 < (-110:ℚ) then (-110:ℚ) / 100 + 1 else 100 / |(-110:ℚ)| + 1)) 2
      breakeven_probability := pyRound
        (1 / (if 0 < (-110:ℚ) then (-110:ℚ) / 100 + 1 else 100 / |(-110:ℚ)| + 1)) 4
      sportsbook_decimal_odds := pyRound
        (if 0 < (-110:ℚ) then (-110:ℚ) / 100 + 1 else 100 / |(-110:ℚ)| + 1) 3
      market_decimal_odds := pyRound
        (if 0 < (100:ℚ) then (100:ℚ) / 100 + 1 else 100 / |(100:ℚ)| + 1) 3 } :=
  ⟨by norm_num, by norm_num, by norm_num,
    c2_calculate_ev_formulas (-110) 100 100 (by norm_num) (by norm_num) (by norm_num)⟩

lemma a2d_neg50 : american_to_decimal_exact (-50) = 3 := by
  rw [american_to_decimal_exact_of_neg (by norm_num)]
  norm_num

lemma a2d_pos50 : american_to_decimal_exact 50 = 3/2 := by
  rw [american_to_decimal_exact_of_pos (by norm_num)]
  norm_num

lemma a2d_neg5000 : american_to_decimal_exact (-5000) = 51/50 := by
  rw [american_to_decimal_exact_of_neg (by norm_num)]
  norm_num

lemma a2d_neg5001 : american_to_decimal_exact (-5001) = 5101/5001 := by
  rw [american_to_decimal_exact_of_neg (by norm_num)]
  norm_num

lemma evpct_map_eq (a m s : ℚ) (ha : a ≠ 0) (hm : m ≠ 0) (hs : s ≠ 0) :
    (calculate_ev a m s .american).map EvResult.ev_percentage =
      some (pyRound (ev_percentage_exact a m s) 2) := by
  rw [calculate_ev_american a m s ha hm hs]
  rfl

lemma evp_exact_neg50 : ev_percentage_exact (-50) 100 100 = 50 := by
  unfold ev_percentage_exact ev_dollars_exact win_probability_exact
  rw [a2d_neg50, a2d_pos100]
  norm_num

lemma evp_exact_pos50 : ev_percentage_exact 50 100 100 = -25 := by
  unfold ev_percentage_exact ev_dollars_exact win_probability_exact
  rw [a2d_pos50, a2d_pos100]
  norm_num

lemma evp_exact_neg5000 : ev_percentage_exact (-5000) 100 100 = -49 := by
  unfold ev_percentage_exact ev_dollars_exact win_probability_exact
  rw [a2d_neg5000, a2d_pos100]
  norm_num

lemma evp_exact_neg5001 : ev_percentage_exact (-5001) 100 100 = -245050/5001 := by
  unfold ev_percentage_exact ev_dollars_exact win_probability_exact
  rw [a2d_neg5001, a2d_pos100]
  norm_num

lemma pyRound_intCast (k : ℤ) (n : ℕ) : pyRound (k : ℚ) n = (rhe ((k : ℚ) * 10 ^ n) : ℚ) / 10 ^ n := rfl

lemma pr_evp_neg50 : pyRound (ev_percentage_exact (-50) 100 100) 2 = 50 := by
  rw [evp_exact_neg50,
    pyRound_eq_down _ _ 5000 (by norm_num) (by norm_num) (by norm_num)]
  norm_num

lemma pr_evp_pos50 : pyRound (ev_percentage_exact 50 100 100) 2 = -25 := by
  rw [evp_exact_pos50,
    pyRound_eq_down _ _ (-2500) (by norm_num) (by norm_num) (by norm_num)]
  norm_num

lemma pr_evp_neg5000 : pyRound (ev_percentage_exact (-5000) 100 100) 2 = -49 := by
  rw [evp_exact_neg5000,
    pyRound_eq_down _ _ (-4900) (by norm_num) (by norm_num) (by norm_num)]
  norm_num

lemma pr_evp_neg5001 : pyRound (ev_percentage_exact (-5001) 100 100) 2 = -49 := by
  rw [evp_exact_neg5001,
    pyRound_eq_up _ _ (-4901) (by norm_num) (by norm_num) (by norm_num)]
  norm_num

/-- C5 (counterexample): the strict monotonicity of the returned
`ev_percentage` in the sportsbook odds fails as stated.  With market odds
`+100` and stake 100: for the nonzero pair `-50 < 50` the EV strictly
DECREASES (the decimal-odds conversion is not monotone across the
`(-100, 100)` gap), and for the valid pair `-5001 < -5000` the returned
(2-decimal-rounded) `ev_percentage` is equal, not strictly greater. -/
theorem c5_counterexample :
    ((-50 : ℚ) < 50) ∧
    (calculate_ev (-50) 100 100 .american).map EvResult.ev_percentage = some 50 ∧
    (calculate_ev 50 100 100 .american).map EvResult.ev_percentage = some (-25) ∧
    ((-25 : ℚ) < 50) ∧
    ((-5001 : ℚ) < -5000) ∧
    (calculate_ev (-5001) 100 100 .american).map EvResult.ev_percentage = some (-49) ∧
    (calculate_ev (-5000) 100 100 .american).map EvResult.ev_percentage = some (-49) := by
  refine ⟨by norm_num, ?_, ?_, by norm_num, by norm_num, ?_, ?_⟩
  · rw [evpct_map_eq (-50) 100 100 (by norm_num) (by norm_num) (by norm_num), pr_evp_neg50]
  · rw [evpct_map_eq 50 100 100 (by norm_num) (by norm_num) (by norm_num), pr_evp_pos50]
  · rw [evpct_map_eq (-5001) 100 100 (by norm_num) (by norm_num) (by norm_num), pr_evp_neg5001]
  · rw [evpct_map_eq (-5000) 100 100 (by norm_num) (by norm_num) (by norm_num), pr_evp_neg5000]

/-- C5 (amended): restricted to valid American odds (`|a| ≥ 100`),
excluding the degenerate pair `a₁ = -100, a₂ = 100` (both convert to
decimal odds 2), and measured on the exact pre-rounding value: holding
market odds and stake fixed, a₁ < a₂ implies the exact `ev_percentage`
strictly increases; the returned 2-decimal-rounded `ev_percentage` of
`calculate_ev` is therefore monotone non-decreasing (equality possible
only through rounding). -/
theorem c5_amended (a₁ a₂ m s : ℚ) (h₁ : 100 ≤ |a₁|) (h₂ : 100 ≤ |a₂|)
    (hlt : a₁ < a₂) (hne : ¬(a₁ = -100 ∧ a₂ = 100)) (hm : m ≠ 0) (hs : 0 < s) :
    ev_percentage_exact a₁ m s < ev_percentage_exact a₂ m s ∧
    (calculate_ev a₁ m s .american).map EvResult.ev_percentage =
      some (pyRound (ev_percentage_exact a₁ m s) 2) ∧
    (calculate_ev a₂ m s .american).map EvResult.ev_percentage =
      some (pyRound (ev_percentage_exact a₂ m s) 2) ∧
    pyRound (ev_percentage_exact a₁ m s) 2 ≤ pyRound (ev_percentage_exact a₂ m s) 2 := by
  have ha₁ : a₁ ≠ 0 := by
    rintro rfl
    norm_num at h₁
  have ha₂ : a₂ ≠ 0 := by
    rintro rfl
    norm_num at h₂
  have hstrict := ev_percentage_exact_strict a₁ a₂ m s h₁ h₂ hlt hne hs.ne'
  exact ⟨hstrict,
    evpct_map_eq a₁ m s ha₁ hm hs.ne',
    evpct_map_eq a₂ m s ha₂ hm hs.ne',
    pyRound_mono 2 hstrict.le⟩

/-- C5 witness: the amended monotonicity at sportsbook odds `-120 < 110`,
market `+100`, stake `100`. -/
theorem c5_witness :
    ((100 : ℚ) ≤ |(-120 : ℚ)|) ∧ ((100 : ℚ) ≤ |(110 : ℚ)|) ∧
    ((-120 : ℚ) < 110) ∧ (¬((-120 : ℚ) = -100 ∧ (110 : ℚ) = 100)) ∧
    ((100 : ℚ) ≠ 0) ∧ ((0 : ℚ) < 100) ∧
    (ev_percentage_exact (-120) 100 100 < ev_percentage_exact 110 100 100 ∧
    (calculate_ev (-120) 100 100 .american).map EvResult.ev_percentage =
      some (pyRound (ev_percentage_exact (-120) 100 100) 2) ∧
    (calculate_ev 110 100 100 .american).map EvResult.ev_percentage =
      some (pyRound (ev_percentage_exact 110 100 100) 2) ∧
    pyRound (ev_percentage_exact (-120) 100 100) 2 ≤
      pyRound (ev_percentage_exact 110 100 100) 2) :=
  ⟨by norm_num, by norm_num, by norm_num, by norm_num, by norm_num, by norm_num,
    c5_amended (-120) 110 100 100 (by norm_num) (by norm_num) (by norm_num)
      (by norm_num) (by norm_num) (by norm_num)⟩

-- The matcher (C3): the nested find-first loop equals first-match over
-- the flattened outcome list.

lemma findSome?_find?_flatMap {α β : Type} (l : List α) (g : α → List β)
    (p : β → Bool) :
    (l.findSome? fun a => (g a).find? p) = (l.flatMap g).find? p := by
  induction l with
  | nil => rfl
  | cons a t ih =>
    rw [List.findSome?_cons, List.flatMap_cons, List.find?_append]
    cases h : (g a).find? p with
    | none => exact ih
    | some b => rfl

lemma matcher_loop_eq_find (odds_data : List GameObj) (api_market : String)
    (p : Outcome → Bool) :
    (odds_data.findSome? fun game =>
      game.bookmakers.findSome? fun bookmaker =>
        bookmaker.markets.findSome? fun market =>
          if market.key = api_market then market.outcomes.find? p
          else none) = (eligible_outcomes api_market odds_data).find? p := by
  have hmk : ∀ market : MarketObj,
      (if market.key = api_market then market.outcomes.find? p else none) =
        (if market.key = api_market then market.outcomes else []).find? p := by
    intro market
    split <;> simp
  have hbk : ∀ bookmaker : BookmakerObj,
      (bookmaker.markets.findSome? fun market =>
        if market.key = api_market then market.outcomes.find? p else none) =
      (bookmaker.markets.flatMap fun market =>
        if market.key = api_market then market.outcomes else []).find? p := by
    intro bookmaker
    rw [← findSome?_find?_flatMap]
    congr 1
    funext market
    exact hmk market
  have hgm : ∀ game : GameObj,
      (game.bookmakers.findSome? fun bookmaker =>
        bookmaker.markets.findSome? fun market =>
          if market.key = api_market then market.outcomes.find? p else none) =
      (game.bookmakers.flatMap fun bookmaker =>
        bookmaker.markets.flatMap fun market =>
          if market.key = api_market then market.outcomes else []).find? p := by
    intro game
    rw [← findSome?_find?_flatMap]
    congr 1
    funext bookmaker
    exact hbk bookmaker
  unfold eligible_outcomes
  rw [← findSome?_find?_flatMap]
  congr 1
  funext game
  exact hgm game

/-- C3: on any payload, for a Line whose `market_type` maps to an API
market key, `get_market_odds_for_player` returns the price of the FIRST
outcome (payload iteration order) whose description contains the player
name case-insensitively AND whose point equals the line value exactly,
restricted to markets with the mapped key; when no outcome satisfies both
conditions it returns `none` (no error); and any returned price comes
from an outcome whose point is exactly the line value. -/
theorem c3_matcher_first_exact_match (odds_data : List GameObj)
    (player_name market_type : String) (line_value : ℚ) (api_market : String)
    (h : market_mapping (pyLower market_type) = some api_market) :
    get_market_odds_for_player odds_data player_name market_type line_value =
      ((eligible_outcomes api_market odds_data).find?
        (outcome_matches player_name line_value)).bind Outcome.price ∧
    (((eligible_outcomes api_market odds_data).find?
        (outcome_matches player_name line_value)) = none →
      get_market_odds_for_player odds_data player_name market_type line_value = none) ∧
    (∀ price : ℚ,
      get_market_odds_for_player odds_data player_name market_type line_value =
          some price →
      ∃ o ∈ eligible_outcomes api_market odds_data,
        outcome_matches player_name line_value o = true ∧
        o.point = some line_value ∧ o.price = some price) := by
  have hmain : get_market_odds_for_player odds_data player_name market_type line_value =
      ((eligible_outcomes api_market odds_data).find?
        (outcome_matches player_name line_value)).bind Outcome.price := by
    unfold get_market_odds_for_player
    rw [h]
    show (odds_data.findSome? fun game =>
      game.bookmakers.findSome? fun bookmaker =>
        bookmaker.markets.findSome? fun market =>
          if market.key = api_market then
            market.outcomes.find? (outcome_matches player_name line_value)
          else none).bind Outcome.price = _
    rw [matcher_loop_eq_find]
  refine ⟨hmain, ?_, ?_⟩
  · intro hnone
    rw [hmain, hnone]
    rfl
  · intro price hsome
    rw [hmain] at hsome
    obtain ⟨o, hfind, hprice⟩ := Option.bind_eq_some.mp hsome
    have hmem := List.mem_of_find?_eq_some hfind
    have hmatch := List.find?_some hfind
    have hpoint : o.point = some line_value := by
      have := (Bool.and_eq_true _ _).mp hmatch
      exact of_decide_eq_true this.2
    exact ⟨o, hmem, hmatch, hpoint, hprice⟩

/-- C3 witness: scenario 3 of the spec on the demo payload — LeBron James
at point 25 priced `-120` next to a different player at the same point;
the matcher returns `-120`. -/
theorem c3_witness :
    market_mapping (pyLower "points") = some "player_points" ∧
    (get_market_odds_for_player demo_payload "LeBron James" "points" 25 =
      ((eligible_outcomes "player_points" demo_payload).find?
        (outcome_matches "LeBron James" 25)).bind Outcome.price ∧
    (((eligible_outcomes "player_points" demo_payload).find?
        (outcome_matches "LeBron James" 25)) = none →
      get_market_odds_for_player demo_payload "LeBron James" "points" 25 = none) ∧
    (∀ price : ℚ,
      get_market_odds_for_player demo_payload "LeBron James" "points" 25 =
          some price →
      ∃ o ∈ eligible_outcomes "player_points" demo_payload,
        outcome_matches "LeBron James" 25 o = true ∧
        o.point = some 25 ∧ o.price = some price)) :=
  ⟨by decide, c3_matcher_first_exact_match demo_payload "LeBron James" "points" 25
    "player_points" (by decide)⟩

-- Market-type extraction (C7).

lemma replaceAux_of_not_contains (pat rep : List Char) :
    ∀ (fuel : ℕ) (s : List Char), listContains pat s = false →
      replaceAux pat rep fuel s = s := by
  intro fuel
  induction fuel with
  | zero =>
    intro s _
    rfl
  | succ n ih =>
    intro s h
    cases s with
    | nil => rfl
    | cons c rest =>
      have h' : (dropPre pat (c :: rest)).isSome = false ∧
          listContains pat rest = false := by
        simpa [listContains] using h
      have hnone : dropPre pat (c :: rest) = none := by
        cases hd : dropPre pat (c :: rest) with
        | none => rfl
        | some r =>
          rw [hd] at h'
          simp at h'
      cases pat with
      | nil =>
        rw [show dropPre ([] : List Char) (c :: rest) = some (c :: rest) from rfl]
          at hnone
        exact absurd hnone (by simp)
      | cons p ps =>
        show replaceAux (p :: ps) rep (n + 1) (c :: rest) = c :: rest
        unfold replaceAux
        rw [hnone]
        exact congrArg (c :: ·) (ih rest h'.2)

/-- C7 (counterexample): the normalizer's market-type extraction is
`str.replace`, which removes EVERY occurrence of `player_`, not only a
prefix token: on the key `"rebounds_player_points"` (no `player_` prefix,
no `_alternate` suffix) the code produces `"rebounds_points"`, while the
claim's strip-prefix/strip-suffix reading leaves the key untouched. -/
theorem c7_counterexample :
    market_type_from_key "rebounds_player_points" = "rebounds_points" ∧
    market_type_spec "rebounds_player_points" = "rebounds_player_points" ∧
    ("rebounds_points" : String) ≠ "rebounds_player_points" := by
  refine ⟨by decide, by decide, by decide⟩

/-- C7 (amended): the normalizer derives `market_type` by deleting every
occurrence of the substring `player_` and then every occurrence of the
substring `_alternate`, anywhere in the key (replace-all, not
prefix/suffix stripping); a key containing neither substring is returned
unchanged, and in particular `"player_points_alternate"` normalizes to
`"points"` while `"rebounds_player_points"` becomes
`"rebounds_points"`. -/
theorem c7_amended :
    (∀ key : String, listContains "player_".data key.data = false →
      listContains "_alternate".data key.data = false →
      market_type_from_key key = key) ∧
    market_type_from_key "player_points_alternate" = "points" ∧
    market_type_from_key "rebounds_player_points" = "rebounds_points" := by
  refine ⟨?_, by decide, by decide⟩
  intro key h1 h2
  unfold market_type_from_key pyReplace
  rw [replaceAux_of_not_contains _ _ _ _ h1]
  rw [replaceAux_of_not_contains _ _ _ _ h2]

/-- C7 witness: the identity part of the amended claim at the already
normalized key `"points"`. -/
theorem c7_witness :
    listContains "player_".data "points".data = false ∧
    listContains "_alternate".data "points".data = false ∧
    market_type_from_key "points" = "points" :=
  ⟨by decide, by decide, c7_amended.1 "points" (by decide) (by decide)⟩

-- Dictionary lemmas for the Line-level EV merge (C8).

lemma dictGet_dictSet_same (d : List (String × Value)) (k : String) (v : Value) :
    dictGet (dictSet d k v) k = some v := by
  induction d with
  | nil => simp [dictSet, dictGet]
  | cons kv rest ih =>
    obtain ⟨k', v'⟩ := kv
    by_cases h : k' = k
    · subst h
      simp [dictSet, dictGet]
    · rw [show dictSet ((k', v') :: rest) k v = (k', v') :: dictSet rest k v
        from by simp [dictSet, h]]
      show (if k' = k then some v' else dictGet (dictSet rest k v) k) = some v
      rw [if_neg h]
      exact ih

lemma dictGet_dictSet_ne (d : List (String × Value)) (k k₂ : String) (v : Value)
    (h : k₂ ≠ k) : dictGet (dictSet d k v) k₂ = dictGet d k₂ := by
  induction d with
  | nil => simp [dictSet, dictGet, Ne.symm h]
  | cons kv rest ih =>
    obtain ⟨k', v'⟩ := kv
    by_cases hk : k' = k
    · subst hk
      rw [show dictSet ((k', v') :: rest) k' v = (k', v) :: rest
        from by simp [dictSet]]
      show (if k' = k₂ then some v else dictGet rest k₂) =
        (if k' = k₂ then some v' else dictGet rest k₂)
      rw [if_neg (fun hc => h hc.symm), if_neg (fun hc => h hc.symm)]
    · rw [show dictSet ((k', v') :: rest) k v = (k', v') :: dictSet rest k v
        from by simp [dictSet, hk]]
      show (if k' = k₂ then some v' else dictGet (dictSet rest k v) k₂) =
        (if k' = k₂ then some v' else dictGet rest k₂)
      split
      · rfl
      · exact ih

/-- C8 (amended): `calculate_line_ev` on a Line with nonzero numeric odds
and a nonzero market odds value returns a NEW record that adds the
`market_odds`, `ev_dollars`, `ev_percentage`, `win_probability`,
`payout_if_win` and `is_positive_ev` fields and agrees with the input
Line on every other key; the input (a pure value in this embedding,
`line_data.copy()` in the code) is never mutated.  With zero odds on
either side `calculate_ev` raises instead of returning a record (see the
counterexample). -/
theorem c8_calculate_line_ev_frame (line_data : List (String × Value))
    (market_odds o : ℚ) (hodds : dictGet line_data "odds" = some (.num o))
    (ho : o ≠ 0) (hm : market_odds ≠ 0) :
    ∃ out, calculate_line_ev line_data market_odds = some out ∧
      dictGet out "market_odds" = some (.num market_odds) ∧
      (dictGet out "ev_dollars").isSome = true ∧
      (dictGet out "ev_percentage").isSome = true ∧
      (dictGet out "win_probability").isSome = true ∧
      (dictGet out "payout_if_win").isSome = true ∧
      (dictGet out "is_positive_ev").isSome = true ∧
      (∀ k : String, k ∉ ["market_odds", "ev_dollars", "ev_percentage",
          "win_probability", "payout_if_win", "is_positive_ev"] →
        dictGet out k = dictGet line_data k) := by
  obtain ⟨r, hr⟩ : ∃ r, calculate_ev o market_odds 100 .american = some r :=
    ⟨_, calculate_ev_american o market_odds 100 ho hm (by norm_num)⟩
  have heq : calculate_line_ev line_data market_odds =
      some (dictSet (dictSet (dictSet (dictSet (dictSet (dictSet line_data
        "market_odds" (.num market_odds))
        "ev_dollars" (.num r.ev_dollars))
        "ev_percentage" (.num r.ev_percentage))
        "win_probability" (.num r.win_probability))
        "payout_if_win" (.num r.payout_if_win))
        "is_positive_ev" (.bool (decide (0 < r.ev_percentage)))) := by
    unfold calculate_line_ev
    rw [hodds]
    show (calculate_ev o market_odds 100 .american).map _ = _
    rw [hr]
    rfl
  refine ⟨_, heq, ?_, ?_, ?_, ?_, ?_, ?_, ?_⟩
  · rw [dictGet_dictSet_ne _ _ _ _ (by decide), dictGet_dictSet_ne _ _ _ _ (by decide),
      dictGet_dictSet_ne _ _ _ _ (by decide), dictGet_dictSet_ne _ _ _ _ (by decide),
      dictGet_dictSet_ne _ _ _ _ (by decide), dictGet_dictSet_same]
  · rw [dictGet_dictSet_ne _ _ _ _ (by decide), dictGet_dictSet_ne _ _ _ _ (by decide),
      dictGet_dictSet_ne _ _ _ _ (by decide), dictGet_dictSet_ne _ _ _ _ (by decide),
      dictGet_dictSet_same]
    rfl
  · rw [dictGet_dictSet_ne _ _ _ _ (by decide), dictGet_dictSet_ne _ _ _ _ (by decide),
      dictGet_dictSet_ne _ _ _ _ (by decide), dictGet_dictSet_same]
    rfl
  · rw [dictGet_dictSet_ne _ _ _ _ (by decide), dictGet_dictSet_ne _ _ _ _ (by decide),
      dictGet_dictSet_same]
    rfl
  · rw [dictGet_dictSet_ne _ _ _ _ (by decide), dictGet_dictSet_same]
    rfl
  · rw [dictGet_dictSet_same]
    rfl
  · intro k hk
    simp only [List.mem_cons, List.not_mem_nil, or_false, not_or] at hk
    obtain ⟨h1, h2, h3, h4, h5, h6⟩ := hk
    rw [dictGet_dictSet_ne _ _ _ _ h6, dictGet_dictSet_ne _ _ _ _ h5,
      dictGet_dictSet_ne _ _ _ _ h4, dictGet_dictSet_ne _ _ _ _ h3,
      dictGet_dictSet_ne _ _ _ _ h2, dictGet_dictSet_ne _ _ _ _ h1]

/-- C8 witness: a Line with odds `-110` merged against market odds `+120`. -/
theorem c8_witness :
    dictGet demo_line "odds" = some (.num (-110)) ∧ ((-110 : ℚ) ≠ 0) ∧
    ((120 : ℚ) ≠ 0) ∧
    (∃ out, calculate_line_ev demo_line 120 = some out ∧
      dictGet out "market_odds" = some (.num 120) ∧
      (dictGet out "ev_dollars").isSome = true ∧
      (dictGet out "ev_percentage").isSome = true ∧
      (dictGet out "win_probability").isSome = true ∧
      (dictGet out "payout_if_win").isSome = true ∧
      (dictGet out "is_positive_ev").isSome = true ∧
      (∀ k : String, k ∉ ["market_odds", "ev_dollars", "ev_percentage",
          "win_probability", "payout_if_win", "is_positive_ev"] →
        dictGet out k = dictGet demo_line k)) :=
  ⟨rfl, by norm_num, by norm_num,
    c8_calculate_line_ev_frame demo_line 120 (-110) rfl (by norm_num) (by norm_num)⟩

-- The scrapers' handling of price-less outcomes (C9).

lemma create_line_schema_player_name_field
    (sb sp lg en pn mt : String) (lv od : ℚ) (ou ed sa : String) :
    dictGet (create_line_schema sb sp lg en pn mt lv od ou ed sa)
      "player_name" = some (.str pn) := rfl

lemma create_line_schema_odds_field
    (sb sp lg en pn mt : String) (lv od : ℚ) (ou ed sa : String) :
    dictGet (create_line_schema sb sp lg en pn mt lv od ou ed sa)
      "odds" = some (.num od) := rfl

/-- C9 (implicit behaviour): an outcome with a non-empty player name and a
point but NO `price` key is not dropped by `_parse_player_market` — both
scrapers still emit a Line for it, with `odds` defaulted to 0
(`outcome.get('price', 0)`), the zero American-odds value that
`american_to_decimal` cannot convert. -/
theorem c9_missing_price_line_odds_zero (market : MarketObj) (o : Outcome)
    (lv : ℚ) (event_name sport_key event_date scraped_at : String)
    (hmem : o ∈ market.outcomes) (hname : o.name ≠ "")
    (hpoint : o.point = some lv) (hprice : o.price = none) :
    (∃ l ∈ prizepicks_parse_player_market market event_name sport_key
        event_date scraped_at,
      dictGet l "player_name" = some (.str o.name) ∧
      dictGet l "odds" = some (.num 0)) ∧
    (∃ l ∈ underdog_parse_player_market market event_name sport_key
        event_date scraped_at,
      dictGet l "player_name" = some (.str o.name) ∧
      dictGet l "odds" = some (.num 0)) ∧
    american_to_decimal 0 = none := by
  have hout : ∀ sb : String,
      parse_player_outcome sb (market_type_from_key market.key) event_name
        sport_key event_date scraped_at o =
      some (create_line_schema sb (convert_sport_key sport_key)
        (convert_sport_key sport_key) event_name o.name
        (market_type_from_key market.key) lv 0
        (if pyContains (pyLower o.description) "under" ||
            pyContains (pyLower o.description) "less" then "under" else "over")
        event_date scraped_at) := by
    intro sb
    unfold parse_player_outcome
    rw [hprice, hpoint]
    show (if o.name = "" then none else some _) = some _
    rw [if_neg hname]
    rfl
  refine ⟨?_, ?_, by simp [american_to_decimal]⟩
  · exact ⟨_, List.mem_filterMap.mpr ⟨o, hmem, hout "PrizePicks"⟩,
      create_line_schema_player_name_field .., create_line_schema_odds_field ..⟩
  · exact ⟨_, List.mem_filterMap.mpr ⟨o, hmem, hout "Underdog"⟩,
      create_line_schema_player_name_field .., create_line_schema_odds_field ..⟩

/-- C9 witness: a one-outcome `player_points` market whose outcome has a
name and point 30 but no price. -/
theorem c9_witness :
    demo_outcome_no_price ∈ demo_market_no_price.outcomes ∧
    demo_outcome_no_price.name ≠ "" ∧
    demo_outcome_no_price.point = some 30 ∧
    demo_outcome_no_price.price = none ∧
    ((∃ l ∈ prizepicks_parse_player_market demo_market_no_price "a" "b" "c" "d",
      dictGet l "player_name" = some (.str demo_outcome_no_price.name) ∧
      dictGet l "odds" = some (.num 0)) ∧
    (∃ l ∈ underdog_parse_player_market demo_market_no_price "a" "b" "c" "d",
      dictGet l "player_name" = some (.str demo_outcome_no_price.name) ∧
      dictGet l "odds" = some (.num 0)) ∧
    american_to_decimal 0 = none) :=
  ⟨List.Mem.head _, by decide, rfl, rfl,
    c9_missing_price_line_odds_zero demo_market_no_price demo_outcome_no_price
      30 "a" "b" "c" "d" (List.Mem.head _) (by decide) rfl rfl⟩

-- Create/validate round trip (C10).

/-- C10 (implicit round trip): whenever `over_under` lower-cases to
`"over"` or `"under"` (numeric `line_value`/`odds` and rendered
timestamps being guaranteed by the embedding's types),
`validate_line_schema` accepts every record built by
`create_line_schema`: all twelve required fields are present, the numeric
fields are numeric, and the stored `over_under` is the lower-cased
valid token. -/
theorem c10_create_validate_roundtrip
    (sb sp lg en pn mt : String) (lv od : ℚ) (ou ed sa : String)
    (h : pyLower ou = "over" ∨ pyLower ou = "under") :
    validate_line_schema (create_line_schema sb sp lg en pn mt lv od ou ed sa) =
      some true := by
  have hred : validate_line_schema
      (create_line_schema sb sp lg en pn mt lv od ou ed sa) =
      some (decide (pyLower (pyLower ou) = "over" ∨
        pyLower (pyLower ou) = "under")) := rfl
  rw [hred]
  rcases h with h | h <;> rw [h] <;> decide

/-- C10 witness: the sample Line of `line_schema.py`'s own test block,
with `over_under` given as `"Over"`. -/
theorem c10_witness :
    (pyLower "Over" = "over" ∨ pyLower "Over" = "under") ∧
    validate_line_schema (create_line_schema "PrizePicks" "NBA" "NBA"
      "Lakers vs Warriors" "LeBron James" "points" 25 (-110) "Over"
      "2024-01-15T20:00:00" "2024-01-15T12:00:00") = some true :=
  ⟨by decide,
    c10_create_validate_roundtrip "PrizePicks" "NBA" "NBA"
      "Lakers vs Warriors" "LeBron James" "points" 25 (-110) "Over"
      "2024-01-15T20:00:00" "2024-01-15T12:00:00" (by decide)⟩

/-- C8 (counterexample): the claim's universal quantification over "every
market odds value" fails: with zero odds on either side `calculate_ev`
raises `ZeroDivisionError` out of `calculate_line_ev`, so no merged
record is returned at all. -/
theorem c8_counterexample :
    calculate_line_ev [("odds", Value.num 0)] 100 = none ∧
    calculate_line_ev demo_line 0 = none ∧
    (¬ ∃ out, calculate_line_ev [("odds", Value.num 0)] 100 = some out) := by
  have h1 : calculate_line_ev [("odds", Value.num 0)] 100 = none := by
    simp [calculate_line_ev, dictGet, calculate_ev, american_to_decimal]
  have h2 : calculate_line_ev demo_line 0 = none := by
    simp [calculate_line_ev, demo_line, dictGet, calculate_ev,
      american_to_decimal, decimal_to_probability]
  exact ⟨h1, h2, by simp [h1]⟩
